import Mathlib

/-!
Formal model of the crawl-and-extract engine of the AiJobMatching repository
(final scraper revision), together with proofs about its selector engine,
text/URL extraction, record construction, fetch-retry loop, rate limiting
and deduplication.

C++ `std::string` values are modelled as `List Char`; machine integers as
`Nat` (all quantities involved are non-negative and never overflow in the
scenarios considered, except where explicitly modelled, e.g. the `size_t`
wrap-around of `npos + 2` and the `double` to `int64_t` truncation in
`chrono::seconds::operator*=`).
-/

/-- Strings of the C++ source, modelled as lists of characters. -/
abbrev Str := List Char

/-- Coercion from Lean string literals to the model. -/
def str (s : String) : Str := s.data

/-- The test `s.rfind(pre, 0) == 0` of `std::string`: `pre` occurs at index 0. -/
def startsWith : Str → Str → Bool
  | [], _ => true
  | _ :: _, [] => false
  | p :: ps, c :: cs => p == c && startsWith ps cs

/-- The C++ `std::string::find(needle)`: smallest index at which `needle`
occurs in `hay`, `none` standing for `npos`. -/
def strFind (hay needle : Str) : Option Nat :=
  (List.range (hay.length + 1)).find? (fun i => startsWith needle (hay.drop i))

/-- `hay.find(needle) != std::string::npos`. -/
def isSubstr (needle hay : Str) : Bool := (strFind hay needle).isSome

/-- The C++ `std::string::find(c, start)`: smallest index `i ≥ start` with
`s[i] = c`. -/
def findCharFrom (s : Str) (c : Char) (start : Nat) : Option Nat :=
  (List.range s.length).find? (fun i => decide (start ≤ i) && (s.getD i ' ' == c) && decide (i < s.length))

/-- The C++ `std::string::find_last_of(c)`: largest index holding `c`. -/
def findLastOf (s : Str) (c : Char) : Option Nat :=
  (List.range s.length).reverse.find? (fun i => s.getD i ' ' == c)

/-- `::tolower` on the ASCII range, as used via `std::transform`. -/
def tolowerChar (c : Char) : Char :=
  if 'A' ≤ c && c ≤ 'Z' then Char.ofNat (c.toNat + 32) else c

/-- Lower-casing a whole string (`std::transform` with `::tolower`). -/
def tolowerStr (s : Str) : Str := s.map tolowerChar

/-- `std::isspace` in the default locale: space, tab, newline, vertical tab,
form feed, carriage return. -/
def isCppSpace (c : Char) : Bool :=
  c == ' ' || c == '\t' || c == '\n' || c == '\r' || c == Char.ofNat 11 || c == Char.ofNat 12

/-! ## The parsed HTML tree (Gumbo node graph) -/

/-- A Gumbo element tag: a known tag (with its normalized name, compared by
`gumbo_normalized_tagname`) or `GUMBO_TAG_UNKNOWN`. -/
inductive GTag where
  | named (name : Str)
  | unknown
deriving DecidableEq

/-- A node of the parsed document: an element (tag, attributes with values,
ordered children), a text node (`GUMBO_NODE_TEXT`), or any other node kind
(comments, whitespace nodes, …), which the traversal and extraction code
ignores. -/
inductive GNode where
  | element (tag : GTag) (attrs : List (Str × Str)) (children : List GNode)
  | text (content : Str)
  | other

mutual
/-- Boolean equality on nodes (structural). -/
def gnode_beq : GNode → GNode → Bool
  | .element t1 a1 c1, .element t2 a2 c2 => t1 == t2 && a1 == a2 && gnodes_beq c1 c2
  | .element _ _ _, .text _ => false
  | .element _ _ _, .other => false
  | .text s1, .text s2 => s1 == s2
  | .text _, .element _ _ _ => false
  | .text _, .other => false
  | .other, .other => true
  | .other, .element _ _ _ => false
  | .other, .text _ => false

/-- Boolean equality on node lists. -/
def gnodes_beq : List GNode → List GNode → Bool
  | [], [] => true
  | [], _ :: _ => false
  | _ :: _, [] => false
  | x :: xs, y :: ys => gnode_beq x y && gnodes_beq xs ys
end

mutual
theorem gnode_beq_iff : ∀ a b : GNode, gnode_beq a b = true ↔ a = b
  | .element t1 a1 c1, .element t2 a2 c2 => by
    rw [gnode_beq]
    simp [gnodes_beq_iff c1 c2, Bool.and_eq_true, beq_iff_eq, and_assoc]
  | .element _ _ _, .text _ => by rw [gnode_beq]; simp
  | .element _ _ _, .other => by rw [gnode_beq]; simp
  | .text s1, .text s2 => by rw [gnode_beq]; simp [beq_iff_eq]
  | .text _, .element _ _ _ => by rw [gnode_beq]; simp
  | .text _, .other => by rw [gnode_beq]; simp
  | .other, .other => by rw [gnode_beq]; simp
  | .other, .element _ _ _ => by rw [gnode_beq]; simp
  | .other, .text _ => by rw [gnode_beq]; simp

theorem gnodes_beq_iff : ∀ a b : List GNode, gnodes_beq a b = true ↔ a = b
  | [], [] => by rw [gnodes_beq]; simp
  | [], _ :: _ => by rw [gnodes_beq]; simp
  | _ :: _, [] => by rw [gnodes_beq]; simp
  | x :: xs, y :: ys => by
    rw [gnodes_beq]
    simp [gnode_beq_iff x y, gnodes_beq_iff xs ys, Bool.and_eq_true]
end

instance : DecidableEq GNode := fun a b => decidable_of_iff _ (gnode_beq_iff a b)

/-- `gumbo_get_attribute`: the value of the first attribute with the given
name, if any. -/
def gumbo_get_attribute (attrs : List (Str × Str)) (name : Str) : Option Str :=
  (attrs.find? (fun a => a.1 == name)).map (fun a => a.2)

/-- The tag test of `find_nodes`: an empty requested tag matches everything,
otherwise the element's tag must be known and its normalized name equal. -/
def match_tag (tag : Str) (etag : GTag) : Bool :=
  tag.isEmpty ||
    (match etag with
     | .named t => t == tag
     | .unknown => false)

/-- The selector test of `find_nodes` on an element's attributes, mirroring
the C++ branch structure.  In the `data-testid` branch the source computes
`selector.substr(selector.find("=\"") + 2)`; when the quote is absent,
`npos + 2` wraps around to `1` as a `size_t`, which is modelled explicitly. -/
def match_selector (sel : Str) (attrs : List (Str × Str)) : Bool :=
  if sel.isEmpty then true
  else if isSubstr (str "data-testid=") sel then
    let p :=
      match strFind sel (str "=\"") with
      | some i => i + 2
      | none => 1
    let v0 := sel.drop p
    let v :=
      match strFind v0 (str "\"") with
      | some j => v0.take j
      | none => v0
    match gumbo_get_attribute attrs (str "data-testid") with
    | some av => av == v
    | none => false
  else if isSubstr (str "class=") sel || isSubstr (str "css-") sel then
    let cv :=
      if isSubstr (str "class=\"") sel then
        let p :=
          match strFind sel (str "=\"") with
          | some i => i + 2
          | none => 1
        let v0 := sel.drop p
        match strFind v0 (str "\"") with
        | some j => v0.take j
        | none => v0
      else sel
    match gumbo_get_attribute attrs (str "class") with
    | some av => isSubstr cv av
    | none => false
  else
    let byClass :=
      match gumbo_get_attribute attrs (str "class") with
      | some av => isSubstr sel av
      | none => false
    byClass || attrs.any (fun a => isSubstr sel a.2)

/-- Whether a node passes both tests of `find_nodes` (non-elements never do:
the function returns immediately on them). -/
def node_matches (tag sel : Str) : GNode → Bool
  | .element etag attrs _ => match_tag tag etag && match_selector sel attrs
  | _ => false

mutual
/-- The recursive `find_nodes` of the scraper: push the node onto `out` if it
matches, then search every child in order. -/
def find_nodes (tag sel : Str) (n : GNode) (out : List GNode) : List GNode :=
  match n with
  | .element etag attrs children =>
    find_nodes_children tag sel children
      (if match_tag tag etag && match_selector sel attrs
       then out ++ [GNode.element etag attrs children] else out)
  | .text _ => out
  | .other => out

/-- The child loop of `find_nodes`. -/
def find_nodes_children (tag sel : Str) (cs : List GNode) (out : List GNode) : List GNode :=
  match cs with
  | [] => out
  | c :: rest => find_nodes_children tag sel rest (find_nodes tag sel c out)
end

mutual
/-- All element nodes of a subtree, in pre-order (document) order. -/
def elem_preorder : GNode → List GNode
  | .element etag attrs cs => .element etag attrs cs :: elem_preorder_children cs
  | .text _ => []
  | .other => []

/-- Pre-order element lists of a forest, concatenated. -/
def elem_preorder_children : List GNode → List GNode
  | [] => []
  | c :: rest => elem_preorder c ++ elem_preorder_children rest
end

mutual
/-- Every node of a subtree (elements, text and other nodes alike). -/
def all_nodes : GNode → List GNode
  | .element etag attrs cs => .element etag attrs cs :: all_nodes_children cs
  | .text c => [GNode.text c]
  | .other => [GNode.other]

/-- All nodes of a forest. -/
def all_nodes_children : List GNode → List GNode
  | [] => []
  | c :: rest => all_nodes c ++ all_nodes_children rest
end

mutual
theorem find_nodes_eq_filter (tag sel : Str) :
    ∀ (n : GNode) (out : List GNode),
      find_nodes tag sel n out = out ++ (elem_preorder n).filter (node_matches tag sel)
  | .element etag attrs cs, out => by
    rw [find_nodes, find_nodes_children_eq_filter tag sel cs]
    simp only [elem_preorder, List.filter_cons, node_matches]
    split <;> simp
  | .text c, out => by
    rw [find_nodes]
    simp [elem_preorder]
  | .other, out => by
    rw [find_nodes]
    simp [elem_preorder]

theorem find_nodes_children_eq_filter (tag sel : Str) :
    ∀ (cs : List GNode) (out : List GNode),
      find_nodes_children tag sel cs out
        = out ++ (elem_preorder_children cs).filter (node_matches tag sel)
  | [], out => by
    rw [find_nodes_children]
    simp [elem_preorder_children]
  | c :: rest, out => by
    rw [find_nodes_children, find_nodes_eq_filter tag sel c,
      find_nodes_children_eq_filter tag sel rest]
    simp [elem_preorder_children]
end

mutual
theorem elem_preorder_subset_all_nodes :
    ∀ (n : GNode), ∀ x ∈ elem_preorder n, x ∈ all_nodes n
  | .element etag attrs cs => by
    intro x hx
    rw [elem_preorder] at hx
    rw [all_nodes]
    rcases List.mem_cons.mp hx with h | h
    · exact List.mem_cons.mpr (Or.inl h)
    · exact List.mem_cons.mpr (Or.inr (elem_preorder_children_subset cs x h))
  | .text c => by
    intro x hx
    rw [elem_preorder] at hx
    exact absurd hx (List.not_mem_nil x)
  | .other => by
    intro x hx
    rw [elem_preorder] at hx
    exact absurd hx (List.not_mem_nil x)

theorem elem_preorder_children_subset :
    ∀ (cs : List GNode), ∀ x ∈ elem_preorder_children cs, x ∈ all_nodes_children cs
  | [] => by
    intro x hx
    rw [elem_preorder_children] at hx
    exact absurd hx (List.not_mem_nil x)
  | c :: rest => by
    intro x hx
    rw [elem_preorder_children] at hx
    rw [all_nodes_children]
    rcases List.mem_append.mp hx with h | h
    · exact List.mem_append.mpr (Or.inl (elem_preorder_subset_all_nodes c x h))
    · exact List.mem_append.mpr (Or.inr (elem_preorder_children_subset rest x h))
end

/-- C8: for every parsed tree and every (tag, selector) pair, `find_nodes`
returns exactly the matching element nodes of the tree filtered out of the
pre-order (document-order) node list — so a matched node is emitted before
any of its descendants and the descendants of a match are still searched —
and every returned node is a node of the searched tree. -/
theorem find_nodes_document_order (tag sel : Str) (n : GNode) :
    find_nodes tag sel n [] = (elem_preorder n).filter (node_matches tag sel) ∧
    ∀ x ∈ find_nodes tag sel n [], x ∈ all_nodes n := by
  have heq := find_nodes_eq_filter tag sel n []
  simp only [List.nil_append] at heq
  refine ⟨heq, ?_⟩
  intro x hx
  rw [heq] at hx
  exact elem_preorder_subset_all_nodes n x (List.mem_of_mem_filter hx)

/-- Instantiation of the pre-order theorem on a concrete nested document:
the root matching node is returned and belongs to the tree. -/
theorem find_nodes_document_order_witness :
    (GNode.element (.named (str "div")) [(str "class", str "job")] []) ∈
      all_nodes (GNode.element (.named (str "div")) [(str "class", str "job")] []) :=
  (find_nodes_document_order (str "div") (str "job")
      (GNode.element (.named (str "div")) [(str "class", str "job")] [])).2
    (GNode.element (.named (str "div")) [(str "class", str "job")] []) (by decide)

/-! ## Text / attribute extraction and URL normalization -/

mutual
/-- `extract_text`: a text node yields its literal content; an element
concatenates its children's non-empty extractions with single spaces; other
node kinds yield the empty string. -/
def extract_text : GNode → Str
  | .text c => c
  | .element _ _ cs => extract_text_fold [] cs
  | .other => []

/-- The child accumulation loop of `extract_text`: skip empty results, put
one space between the rest. -/
def extract_text_fold (s : Str) : List GNode → Str
  | [] => s
  | c :: rest =>
    let t := extract_text c
    extract_text_fold
      (if t.isEmpty then s else if s.isEmpty then t else s ++ [' '] ++ t) rest
end

/-- `extract_attr`: the attribute's value, or the empty string when the node
is not an element or lacks the attribute. -/
def extract_attr (n : GNode) (name : Str) : Str :=
  match n with
  | .element _ attrs _ => (gumbo_get_attribute attrs name).getD []
  | _ => []

/-- `clean_text`: collapse whitespace runs to one space, drop leading
whitespace, and trim one trailing space, exactly as the character loop of
the source does. -/
def clean_text (text : Str) : Str :=
  let r := (text.foldl
    (fun st c =>
      if isCppSpace c then
        if !st.2 && !st.1.isEmpty then (st.1 ++ [' '], true) else st
      else (st.1 ++ [c], false))
    (([] : Str), false)).1
  if r.getLast? = some ' ' then r.dropLast else r

/-- `normalize_url`: empty input maps to empty; input beginning with the four
characters `http` is returned unchanged; a root-relative input is appended to
the scheme-and-host part of the base (or to the whole base when the base has
no `://` or no slash after the host); any other input is appended to the base
cut after its last slash, provided that slash sits at an index above 8,
otherwise to the base itself with a slash appended when it lacks a trailing
one.  `base.back()` on an empty base is undefined behaviour in the source;
the model takes the appending branch there. -/
def normalize_url (url base_url : Str) : Str :=
  if url.isEmpty then []
  else if startsWith (str "http") url then url
  else if url.headD ' ' == '/' then
    match strFind base_url (str "://") with
    | none => base_url ++ url
    | some protocol_end =>
      let domain_start := protocol_end + 3
      match findCharFrom base_url '/' domain_start with
      | none => base_url ++ url
      | some domain_end => base_url.take domain_end ++ url
  else
    let base :=
      match findLastOf base_url '/' with
      | some last_slash =>
        if last_slash > 8 then base_url.take (last_slash + 1)
        else if base_url.getLast? ≠ some '/' then base_url ++ ['/'] else base_url
      | none => if base_url.getLast? ≠ some '/' then base_url ++ ['/'] else base_url
    base ++ url

/-- `extract_url`: an `href` on the node itself wins; otherwise the first
anchor found inside the node supplies it; the result is normalized against
the base URL, and absence yields the empty string. -/
def extract_url (n : GNode) (base_url : Str) : Str :=
  let href := extract_attr n (str "href")
  if !href.isEmpty then normalize_url href base_url
  else
    match find_nodes (str "a") [] n [] with
    | [] => []
    | a0 :: _ =>
      let h := extract_attr a0 (str "href")
      if !h.isEmpty then normalize_url h base_url else []

/-- Comma tokenization of the skills text.  The source reads tokens with
`std::getline(iss, skill, ',')`; splitting at every comma in one structural
pass yields the same tokens except for one extra empty token after a trailing
comma (and one for the empty string), which the caller's emptiness test
drops either way. -/
def split_on_comma : Str → List Str
  | [] => [[]]
  | c :: rest =>
    if c == ',' then [] :: split_on_comma rest
    else
      match split_on_comma rest with
      | [] => [[c]]
      | t :: ts => (c :: t) :: ts

/-- The `std::regex_replace(skill, regex("^\s+|\s+$"), "")` trim: drop the
leading and the trailing whitespace run. -/
def trim_ws (s : Str) : Str :=
  ((s.dropWhile isCppSpace).reverse.dropWhile isCppSpace).reverse

/-- The skills loop body: keep each non-empty comma token whose whitespace
trim is non-empty, trimmed, in order. -/
def tokenize_skills (skills_text : Str) : List Str :=
  (split_on_comma skills_text).foldr
    (fun skill acc =>
      if skill.isEmpty then acc
      else
        let t := trim_ws skill
        if t.isEmpty then acc else t :: acc)
    []

/-- C7 counterexample: `normalize_url` does not leave every scheme-prefixed
absolute URL unchanged (an `ftp` URL is treated as relative), and a relative
path that merely begins with the characters `http` is returned unchanged
rather than resolved against the base directory. -/
theorem normalize_url_counterexample :
    normalize_url (str "ftp://a.com/x") (str "https://x.com/c") ≠ str "ftp://a.com/x" ∧
    normalize_url (str "ftp://a.com/x") (str "https://x.com/c") = str "https://x.com/ftp://a.com/x" ∧
    normalize_url (str "httpdocs/a") (str "https://x.com/c/") ≠ str "https://x.com/c/httpdocs/a" ∧
    normalize_url (str "httpdocs/a") (str "https://x.com/c/") = str "httpdocs/a" := by
  refine ⟨by decide, by decide, by decide, by decide⟩

/-- A string starting with `http` is non-empty. -/
theorem startsWith_http_not_empty (url : Str) (h : startsWith (str "http") url = true) :
    url.isEmpty = false := by
  cases url with
  | nil => simp [str, startsWith] at h
  | cons c cs => simp [List.isEmpty]

/-- C7 (amended): a URL beginning with the characters `http` passes through
unchanged; the two resolution examples hold; and for a relative URL without
leading slash, when the base's last slash sits at an index above 8 the URL is
appended to the base truncated just after that slash. -/
theorem normalize_url_amended :
    (∀ url base_url : Str, startsWith (str "http") url = true →
        normalize_url url base_url = url) ∧
    normalize_url (str "/a/b") (str "https://x.com/c") = str "https://x.com/a/b" ∧
    normalize_url (str "a/b") (str "https://x.com/c/") = str "https://x.com/c/a/b" ∧
    (∀ (url base_url : Str) (last_slash : Nat),
        url.isEmpty = false → startsWith (str "http") url = false →
        (url.headD ' ' == '/') = false → findLastOf base_url '/' = some last_slash →
        last_slash > 8 →
        normalize_url url base_url = base_url.take (last_slash + 1) ++ url) := by
  refine ⟨?_, by decide, by decide, ?_⟩
  · intro url base_url h
    rw [normalize_url, startsWith_http_not_empty url h]
    simp [h]
  · intro url base_url last_slash hne hhttp hslash hlast hgt
    rw [normalize_url, hne, hhttp, hslash, hlast]
    simp [hgt]

/-- Instantiation of the amended C7 theorem: both hypothesis-bearing clauses
evaluated at concrete URLs. -/
theorem normalize_url_amended_witness :
    normalize_url (str "http://b.org/y") (str "https://x.com/c") = str "http://b.org/y" ∧
    normalize_url (str "a/b") (str "https://x.com/c") = str "https://x.com/a/b" :=
  ⟨normalize_url_amended.1 (str "http://b.org/y") (str "https://x.com/c") (by decide),
   normalize_url_amended.2.2.2 (str "a/b") (str "https://x.com/c") 13
     (by decide) (by decide) (by decide) (by decide) (by decide)⟩

/-! ## Records (nlohmann::json values produced by the scraper) -/

/-- A JSON value stored in a scraped record: a string or an array of
strings (the only shapes `scrape_details` produces). -/
inductive JVal where
  | s (v : Str)
  | arr (v : List Str)
deriving DecidableEq

/-- A JSON object, as the association of keys to values.  nlohmann::json
keeps object keys sorted; since nothing below ever inspects key order, the
model keeps insertion order instead. -/
abbrev JObj := List (Str × JVal)

/-- A record as handed around by the scraper: the `json()` null value (the
keyword filter's rejection result) or an object. -/
inductive JRec where
  | null
  | obj (fields : JObj)
deriving DecidableEq

/-- Assignment `j[key] = v`: replace the value under an existing key, or add
the binding. -/
def jset (o : JObj) (k : Str) (v : JVal) : JObj :=
  match o with
  | [] => [(k, v)]
  | f :: rest => if f.1 == k then (k, v) :: rest else f :: jset rest k v

/-- Lookup of a key's value in an object (first binding wins, as in a map). -/
def jget : JObj → Str → Option JVal
  | [], _ => none
  | f :: rest, k => if f.1 == k then some f.2 else jget rest k

/-- `j.value(key, default)` for string-valued fields. -/
def jvalue (o : JObj) (k : Str) (d : Str) : Str :=
  match jget o k with
  | some (.s v) => v
  | _ => d

/-- Lookup through a possibly-null record. -/
def jrec_get (j : JRec) (k : Str) : Option JVal :=
  match j with
  | .null => none
  | .obj o => jget o k

/-- `j.value(key, default)` on a record.  The deduplicator only ever receives
object records (`main` filters empty ones out before collecting). -/
def jrec_value (j : JRec) (k : Str) (d : Str) : Str :=
  match j with
  | .null => d
  | .obj o => jvalue o k d

/-- `j.empty()`: true for the null record and for an object with no field. -/
def jempty : JRec → Bool
  | .null => true
  | .obj o => o.isEmpty

/-- The per-site configuration record of the scraper. -/
structure SiteConfig where
  name : Str
  base_url : Str
  search_url_template : Str
  container_tag : Str
  container_class : Str
  title_tag : Str
  title_class : Str
  company_tag : Str
  company_class : Str
  location_tag : Str
  location_class : Str
  description_tag : Str
  description_class : Str
  url_tag : Str
  url_class : Str
  date_tag : Str
  date_class : Str
  skills_tag : Str
  skills_class : Str
  pagination_param : Str
  max_pages : Nat
  delay : Nat
  requires_js : Bool
deriving DecidableEq

/-- The search configuration handed to `scrape_details`. -/
structure SearchConfig where
  job_title : Str
  location : Str
  keywords : List Str
  target_site : Str
deriving DecidableEq

/-- The skills block of `scrape_details`: a dedicated selector's first match
is clean-texted and comma-tokenized; with no selector configured or no match
the list stays empty (the description-keyword extraction present in earlier
revisions is disabled in this one). -/
def extract_skills (n : GNode) (cfg : SiteConfig) : List Str :=
  if !cfg.skills_tag.isEmpty then
    match find_nodes cfg.skills_tag cfg.skills_class n [] with
    | [] => []
    | s0 :: _ => tokenize_skills (clean_text (extract_text s0))
  else []

/-- The title block of `scrape_details`: the first match of the title
selector, clean-texted, stored under `title`; no selector or no match leaves
the record untouched. -/
def title_step (n : GNode) (cfg : SiteConfig) (j : JObj) : JObj :=
  if !cfg.title_tag.isEmpty then
    match find_nodes cfg.title_tag cfg.title_class n [] with
    | [] => j
    | t0 :: _ => jset j (str "title") (.s (clean_text (extract_text t0)))
  else j

/-- The location block of `scrape_details`: the first match of the location
selector, or the search configuration's location when the selector is absent
or matches nothing. -/
def location_step (n : GNode) (cfg : SiteConfig) (search_cfg : SearchConfig) (j : JObj) : JObj :=
  if !cfg.location_tag.isEmpty then
    match find_nodes cfg.location_tag cfg.location_class n [] with
    | [] => jset j (str "location") (.s search_cfg.location)
    | l0 :: _ => jset j (str "location") (.s (clean_text (extract_text l0)))
  else jset j (str "location") (.s search_cfg.location)

/-- The company block of `scrape_details`. -/
def company_step (n : GNode) (cfg : SiteConfig) (j : JObj) : JObj :=
  if !cfg.company_tag.isEmpty then
    match find_nodes cfg.company_tag cfg.company_class n [] with
    | [] => j
    | c0 :: _ => jset j (str "company") (.s (clean_text (extract_text c0)))
  else j

/-- The description block of `scrape_details`. -/
def description_step (n : GNode) (cfg : SiteConfig) (j : JObj) : JObj :=
  if !cfg.description_tag.isEmpty then
    match find_nodes cfg.description_tag cfg.description_class n [] with
    | [] => j
    | d0 :: _ => jset j (str "description") (.s (clean_text (extract_text d0)))
  else j

/-- The job-URL computation of `scrape_details`: through the configured URL
selector's first match (with an `href` fallback), or from the container
itself when no URL selector is configured. -/
def job_url_of (n : GNode) (cfg : SiteConfig) : Str :=
  if !cfg.url_tag.isEmpty then
    match find_nodes cfg.url_tag cfg.url_class n [] with
    | [] => []
    | u0 :: _ =>
      let r := extract_url u0 cfg.base_url
      if r.isEmpty then
        let h := extract_attr u0 (str "href")
        if !h.isEmpty then normalize_url h cfg.base_url else []
      else r
  else extract_url n cfg.base_url

/-- The source overwrite of `scrape_details`: a non-empty job URL replaces
the site name stored under `source`. -/
def source_step (n : GNode) (cfg : SiteConfig) (j : JObj) : JObj :=
  let job_url := job_url_of n cfg
  if !job_url.isEmpty then jset j (str "source") (.s job_url) else j

/-- The skills block of `scrape_details`: the record's `skills` is first set
to the empty array and then to the extracted list when that is non-empty
(and to the empty array again otherwise). -/
def skills_step (n : GNode) (cfg : SiteConfig) (j : JObj) : JObj :=
  let skills := extract_skills n cfg
  let j := jset j (str "skills") (.arr [])
  if !skills.isEmpty then jset j (str "skills") (.arr skills)
  else jset j (str "skills") (.arr [])

/-- The keyword filter of `scrape_details`: with keywords configured, the
record survives only if some keyword occurs (case-insensitively) in the
record's description or title; otherwise the null record is returned. -/
def keyword_filter_step (search_cfg : SearchConfig) (j : JObj) : JRec :=
  if !search_cfg.keywords.isEmpty then
    let description := tolowerStr (jvalue j (str "description") [])
    let title := tolowerStr (jvalue j (str "title") [])
    let found := search_cfg.keywords.any (fun kw =>
      let kl := tolowerStr kw
      isSubstr kl description || isSubstr kl title)
    if !found then .null else .obj j
  else .obj j

/-- `scrape_details` of the final scraper revision.  `now` stands for the
`now_iso()` clock read; the steps mirror the source in order: `source` and
`scraped_at` first, then title, location, company, description, the job URL
(overwriting `source` when found), the skills array, and finally the keyword
filter. -/
def scrape_details (now : Str) (n : GNode) (cfg : SiteConfig) (search_cfg : SearchConfig) : JRec :=
  keyword_filter_step search_cfg
    (skills_step n cfg
      (source_step n cfg
        (description_step n cfg
          (company_step n cfg
            (location_step n cfg search_cfg
              (title_step n cfg
                (jset (jset [] (str "source") (.s cfg.name)) (str "scraped_at") (.s now))))))))

/-! ## Field-lookup lemmas for the record construction -/

/-- Assigning a key makes it present with the assigned value. -/
theorem jget_jset_self (o : JObj) (k : Str) (v : JVal) :
    jget (jset o k v) k = some v := by
  induction o with
  | nil => simp [jset, jget]
  | cons f rest ih =>
    rw [jset]
    by_cases h : (f.1 == k) = true
    · rw [if_pos h, jget]
      simp
    · rw [if_neg h, jget, if_neg (by simp [h]), ih]

/-- Assigning one key leaves every other key's lookup unchanged. -/
theorem jget_jset_other (o : JObj) (k : Str) (v : JVal) (k2 : Str) (h : k2 ≠ k) :
    jget (jset o k v) k2 = jget o k2 := by
  have hk2 : (k == k2) = false := beq_eq_false_iff_ne.mpr (fun hc => h hc.symm)
  induction o with
  | nil => simp [jset, jget, hk2]
  | cons f rest ih =>
    rw [jset]
    by_cases hf : (f.1 == k) = true
    · have hf1 : f.1 = k := by simpa using hf
      rw [if_pos hf, jget, jget, hf1, hk2]
      simp
    · rw [if_neg hf, jget, jget]
      by_cases h2 : (f.1 == k2) = true
      · simp [h2]
      · simp [h2, ih]

/-- An object is never empty after an assignment. -/
theorem jset_ne_nil (o : JObj) (k : Str) (v : JVal) : jset o k v ≠ [] := by
  cases o with
  | nil => simp [jset]
  | cons f rest =>
    rw [jset]
    by_cases h : f.1 == k <;> simp [h]

/-- The title block leaves every key other than `title` unchanged. -/
theorem title_step_other (n : GNode) (cfg : SiteConfig) (j : JObj) (k : Str)
    (h : k ≠ str "title") :
    jget (title_step n cfg j) k = jget j k := by
  rw [title_step]
  split
  · split
    · rfl
    · exact jget_jset_other _ _ _ _ h
  · rfl

/-- The company block leaves every key other than `company` unchanged. -/
theorem company_step_other (n : GNode) (cfg : SiteConfig) (j : JObj) (k : Str)
    (h : k ≠ str "company") :
    jget (company_step n cfg j) k = jget j k := by
  rw [company_step]
  split
  · split
    · rfl
    · exact jget_jset_other _ _ _ _ h
  · rfl

/-- The description block leaves every key other than `description`
unchanged. -/
theorem description_step_other (n : GNode) (cfg : SiteConfig) (j : JObj) (k : Str)
    (h : k ≠ str "description") :
    jget (description_step n cfg j) k = jget j k := by
  rw [description_step]
  split
  · split
    · rfl
    · exact jget_jset_other _ _ _ _ h
  · rfl

/-- The location block leaves every key other than `location` unchanged. -/
theorem location_step_other (n : GNode) (cfg : SiteConfig) (scfg : SearchConfig)
    (j : JObj) (k : Str) (h : k ≠ str "location") :
    jget (location_step n cfg scfg j) k = jget j k := by
  rw [location_step]
  split
  · split
    · exact jget_jset_other _ _ _ _ h
    · exact jget_jset_other _ _ _ _ h
  · exact jget_jset_other _ _ _ _ h

/-- The source overwrite leaves every key other than `source` unchanged. -/
theorem source_step_other (n : GNode) (cfg : SiteConfig) (j : JObj) (k : Str)
    (h : k ≠ str "source") :
    jget (source_step n cfg j) k = jget j k := by
  rw [source_step]
  split
  · exact jget_jset_other _ _ _ _ h
  · rfl

/-- The skills block leaves every key other than `skills` unchanged. -/
theorem skills_step_other (n : GNode) (cfg : SiteConfig) (j : JObj) (k : Str)
    (h : k ≠ str "skills") :
    jget (skills_step n cfg j) k = jget j k := by
  rw [skills_step]
  split
  · rw [jget_jset_other _ _ _ _ h, jget_jset_other _ _ _ _ h]
  · rw [jget_jset_other _ _ _ _ h, jget_jset_other _ _ _ _ h]

/-- After the skills block, `skills` holds exactly the extracted list. -/
theorem skills_step_get (n : GNode) (cfg : SiteConfig) (j : JObj) :
    jget (skills_step n cfg j) (str "skills") = some (.arr (extract_skills n cfg)) := by
  rw [skills_step]
  split
  · exact jget_jset_self _ _ _
  · next hne =>
    have : extract_skills n cfg = [] := by
      have := List.isEmpty_iff.mp (by simpa using hne)
      exact this
    rw [this]
    exact jget_jset_self _ _ _

/-- After the location block, `location` holds a string; when the selector is
absent or matched nothing it is the search configuration's location. -/
theorem location_step_get (n : GNode) (cfg : SiteConfig) (scfg : SearchConfig) (j : JObj) :
    (∃ v, jget (location_step n cfg scfg j) (str "location") = some (.s v)) ∧
    ((cfg.location_tag = [] ∨ find_nodes cfg.location_tag cfg.location_class n [] = []) →
      jget (location_step n cfg scfg j) (str "location") = some (.s scfg.location)) := by
  rw [location_step]
  constructor
  · split
    · split
      · exact ⟨_, jget_jset_self _ _ _⟩
      · exact ⟨_, jget_jset_self _ _ _⟩
    · exact ⟨_, jget_jset_self _ _ _⟩
  · intro hdef
    split
    · next htag =>
      split
      · exact jget_jset_self _ _ _
      · next l0 rest hmatch =>
        rcases hdef with h | h
        · rw [h] at htag
          simp [List.isEmpty] at htag
        · rw [h] at hmatch
          exact absurd hmatch.symm (List.cons_ne_nil l0 rest)
    · exact jget_jset_self _ _ _

/-- The keyword filter returns the record itself or the null record. -/
theorem keyword_filter_cases (scfg : SearchConfig) (j : JObj) :
    keyword_filter_step scfg j = .null ∨ keyword_filter_step scfg j = .obj j := by
  simp only [keyword_filter_step]
  split
  · split
    · exact Or.inl rfl
    · exact Or.inr rfl
  · exact Or.inr rfl

/-- With no keywords configured, the filter keeps every record. -/
theorem keyword_filter_empty (scfg : SearchConfig) (j : JObj) (h : scfg.keywords = []) :
    keyword_filter_step scfg j = .obj j := by
  simp only [keyword_filter_step, h]
  rfl

/-- Unfolding of `scrape_details`: the result is the null record or the
object built by the step chain. -/
theorem scrape_details_cases (now : Str) (n : GNode) (cfg : SiteConfig) (scfg : SearchConfig) :
    scrape_details now n cfg scfg = .null ∨
    scrape_details now n cfg scfg =
      .obj (skills_step n cfg
        (source_step n cfg
          (description_step n cfg
            (company_step n cfg
              (location_step n cfg scfg
                (title_step n cfg
                  (jset (jset [] (str "source") (.s cfg.name))
                    (str "scraped_at") (.s now)))))))) := by
  rw [scrape_details]
  exact keyword_filter_cases _ _

/-- C5 (amended): no record the final scraper's `scrape_details` produces
carries a `job_id` field at all (the hash-derived `job_id` exists only in
the earlier scraper revision). -/
theorem scrape_details_no_job_id (now : Str) (n : GNode) (cfg : SiteConfig)
    (scfg : SearchConfig) :
    jrec_get (scrape_details now n cfg scfg) (str "job_id") = none := by
  rcases scrape_details_cases now n cfg scfg with h | h
  · rw [h]
    rfl
  · rw [h]
    simp only [jrec_get]
    rw [skills_step_other _ _ _ _ (by decide), source_step_other _ _ _ _ (by decide),
      description_step_other _ _ _ _ (by decide), company_step_other _ _ _ _ (by decide),
      location_step_other _ _ _ _ _ (by decide), title_step_other _ _ _ _ (by decide)]
    rfl

/-- C9: every record `scrape_details` does not filter out carries a
`location` value, and when the descriptor has no location selector or the
selector matches nothing, that value is the search configuration's
location. -/
theorem scrape_details_location_present (now : Str) (n : GNode) (cfg : SiteConfig)
    (scfg : SearchConfig) (h : scrape_details now n cfg scfg ≠ .null) :
    (∃ v, jrec_get (scrape_details now n cfg scfg) (str "location") = some (.s v)) ∧
    ((cfg.location_tag = [] ∨ find_nodes cfg.location_tag cfg.location_class n [] = []) →
      jrec_get (scrape_details now n cfg scfg) (str "location")
        = some (.s scfg.location)) := by
  rcases scrape_details_cases now n cfg scfg with hc | hc
  · exact absurd hc h
  · rw [hc]
    simp only [jrec_get]
    rw [skills_step_other _ _ _ _ (by decide), source_step_other _ _ _ _ (by decide),
      description_step_other _ _ _ _ (by decide), company_step_other _ _ _ _ (by decide)]
    exact location_step_get n cfg scfg _

/-- C3 (amended): the `skills` of an unfiltered record is exactly
`extract_skills`; without a dedicated skills selector (or when it matches
nothing) that list is empty — the description-keyword extraction of earlier
revisions is disabled — and when the selector matches, the first match's
clean text is comma-tokenized with trimming and empty tokens dropped. -/
theorem scrape_details_skills (now : Str) (n : GNode) (cfg : SiteConfig)
    (scfg : SearchConfig) (hkw : scfg.keywords = []) :
    jrec_get (scrape_details now n cfg scfg) (str "skills")
      = some (.arr (extract_skills n cfg)) ∧
    ((cfg.skills_tag = [] ∨ find_nodes cfg.skills_tag cfg.skills_class n [] = []) →
      extract_skills n cfg = []) ∧
    (∀ s0 rest, cfg.skills_tag ≠ [] →
      find_nodes cfg.skills_tag cfg.skills_class n [] = s0 :: rest →
      extract_skills n cfg = tokenize_skills (clean_text (extract_text s0))) := by
  refine ⟨?_, ?_, ?_⟩
  · rw [scrape_details, keyword_filter_empty _ _ hkw]
    simp only [jrec_get]
    exact skills_step_get _ _ _
  · intro hdef
    rw [extract_skills]
    split
    · next htag =>
      rcases hdef with h | h
      · rw [h] at htag
        simp [List.isEmpty] at htag
      · rw [h]
    · rfl
  · intro s0 rest hne hmatch
    rw [extract_skills]
    split
    · rw [hmatch]
    · next htag =>
      have : cfg.skills_tag = [] := by
        cases hse : cfg.skills_tag with
        | nil => rfl
        | cons a t =>
          rw [hse] at htag
          simp [List.isEmpty] at htag
      exact absurd this hne

/-! ## Concrete test fixtures -/

/-- A site descriptor with title, company and description selectors but no
location, URL or skills selector. -/
def testCfg : SiteConfig :=
  { name := str "TestSite", base_url := str "https://x.com",
    search_url_template := [], container_tag := str "div", container_class := str "job",
    title_tag := str "h2", title_class := str "title",
    company_tag := str "span", company_class := str "company",
    location_tag := [], location_class := [],
    description_tag := str "p", description_class := [],
    url_tag := [], url_class := [], date_tag := [], date_class := [],
    skills_tag := [], skills_class := [],
    pagination_param := [], max_pages := 1, delay := 2, requires_js := false }

/-- A search configuration with no keyword filter. -/
def testScfg : SearchConfig :=
  { job_title := str "Software Developer", location := str "Remote",
    keywords := [], target_site := [] }

/-- A container node holding a linked title, a company span and a
description that names well-known skills. -/
def testContainer : GNode :=
  .element (.named (str "div")) [(str "class", str "job")]
    [ .element (.named (str "h2")) [(str "class", str "title")]
        [ .element (.named (str "a")) [(str "href", str "/jobs/42")] [ .text (str "Engineer") ] ],
      .element (.named (str "span")) [(str "class", str "company")] [ .text (str "Acme") ],
      .element (.named (str "p")) [] [ .text (str "We use Python and SQL daily") ] ]

/-- A container whose markup carries a description but no title element. -/
def titlelessContainer : GNode :=
  .element (.named (str "div")) [(str "class", str "job")]
    [ .element (.named (str "p")) [] [ .text (str "Great Python role with no title markup") ] ]

/-- C3 counterexample: with no dedicated skills selector the extracted
record's `skills` is the empty array even though the extracted description
contains the vocabulary word `python` — no keyword matching against the
description happens in this revision. -/
theorem scrape_details_skills_counterexample :
    jrec_get (scrape_details (str "T") testContainer testCfg testScfg) (str "skills")
      = some (.arr []) ∧
    isSubstr (str "python")
      (tolowerStr (jrec_value (scrape_details (str "T") testContainer testCfg testScfg)
        (str "description") [])) = true := by
  refine ⟨by decide, by decide⟩

/-- Instantiation of the skills theorem at the concrete fixture. -/
theorem scrape_details_skills_witness :
    jrec_get (scrape_details (str "T") testContainer testCfg testScfg) (str "skills")
      = some (.arr (extract_skills testContainer testCfg)) ∧
    extract_skills testContainer testCfg = [] :=
  ⟨(scrape_details_skills (str "T") testContainer testCfg testScfg rfl).1,
   (scrape_details_skills (str "T") testContainer testCfg testScfg rfl).2.1 (Or.inl rfl)⟩

/-- Instantiation of the location theorem: the fixture has no location
selector, so the record's location is the search location. -/
theorem scrape_details_location_witness :
    jrec_get (scrape_details (str "T") testContainer testCfg testScfg) (str "location")
      = some (.s (str "Remote")) :=
  (scrape_details_location_present (str "T") testContainer testCfg testScfg
    (by decide)).2 (Or.inl rfl)

/-! ## The container loop of the crawl controller (`main`) -/

/-- The skills block always leaves at least one field in the record. -/
theorem skills_step_ne_nil (n : GNode) (cfg : SiteConfig) (j : JObj) :
    skills_step n cfg j ≠ [] := by
  simp only [skills_step]
  split
  · exact jset_ne_nil _ _ _
  · exact jset_ne_nil _ _ _

/-- The container loop of `main`: each container is extracted and the result
appended to the running collection whenever the returned JSON is non-empty
(`if (!job.empty())`), stopping once the per-run job cap is reached. -/
def collect_page_jobs (now : Str) (cfg : SiteConfig) (scfg : SearchConfig) (max_jobs : Nat) :
    List GNode → List JRec → List JRec
  | [], all_jobs => all_jobs
  | c :: rest, all_jobs =>
    let job := scrape_details now c cfg scfg
    if !(jempty job) then
      let all_jobs2 := all_jobs ++ [job]
      if max_jobs ≤ all_jobs2.length then all_jobs2
      else collect_page_jobs now cfg scfg max_jobs rest all_jobs2
    else collect_page_jobs now cfg scfg max_jobs rest all_jobs

/-- C1 (amended): with no keyword filter configured, `scrape_details` never
returns an empty record (it always carries `source`, `scraped_at`,
`location` and `skills`), and below the job cap the loop appends exactly
the non-empty extraction results, in order — so containers with an empty or
absent title are appended too, not skipped; the only skip is the keyword
filter's null record. -/
theorem collect_page_jobs_appends_nonempty (now : Str) (cfg : SiteConfig) (scfg : SearchConfig) :
    (∀ n : GNode, scfg.keywords = [] → jempty (scrape_details now n cfg scfg) = false) ∧
    (∀ (containers : List GNode) (max_jobs : Nat) (acc : List JRec),
      containers.length + acc.length ≤ max_jobs →
      collect_page_jobs now cfg scfg max_jobs containers acc =
        acc ++ (containers.map (fun c => scrape_details now c cfg scfg)).filter
          (fun j => !(jempty j))) := by
  constructor
  · intro n hkw
    rw [scrape_details, keyword_filter_empty _ _ hkw, jempty]
    cases hsk : skills_step n cfg
        (source_step n cfg
          (description_step n cfg
            (company_step n cfg
              (location_step n cfg scfg
                (title_step n cfg
                  (jset (jset [] (str "source") (.s cfg.name))
                    (str "scraped_at") (.s now))))))) with
    | nil => exact absurd hsk (skills_step_ne_nil _ _ _)
    | cons a t => rfl
  · intro containers
    induction containers with
    | nil =>
      intro max_jobs acc hlen
      simp [collect_page_jobs]
    | cons c rest ih =>
      intro max_jobs acc hlen
      simp only [collect_page_jobs, List.map_cons, List.filter_cons]
      cases hj : jempty (scrape_details now c cfg scfg) with
      | true =>
        have hrec := ih max_jobs acc (by simp at hlen ⊢; omega)
        simpa [hj] using hrec
      | false =>
        by_cases hcap : max_jobs ≤ (acc ++ [scrape_details now c cfg scfg]).length
        · have hr : rest = [] := by
            have h0 : rest.length = 0 := by
              simp at hlen hcap
              omega
            exact List.length_eq_zero.mp h0
          subst hr
          have hcap2 : max_jobs ≤ acc.length + 1 := by simpa using hcap
          simp [hj, hcap2, collect_page_jobs]
        · have hrec := ih max_jobs (acc ++ [scrape_details now c cfg scfg])
            (by simp at hlen ⊢; omega)
          have hcap2 : ¬max_jobs ≤ acc.length + 1 := by simpa using hcap
          simp [hj, hcap2, hrec]

/-- C1 counterexample: a container whose title selector matches nothing
still yields a non-empty record, which the loop appends unchanged — and
that record carries no `title` field at all. -/
theorem collect_page_jobs_counterexample :
    collect_page_jobs (str "T") testCfg testScfg 100 [titlelessContainer] []
      = [scrape_details (str "T") titlelessContainer testCfg testScfg] ∧
    jrec_get (scrape_details (str "T") titlelessContainer testCfg testScfg) (str "title")
      = none := by
  refine ⟨by decide, by decide⟩

/-- Instantiation of the amended C1 theorem on the concrete title-less
container: the record is non-empty and gets appended. -/
theorem collect_page_jobs_appends_nonempty_witness :
    jempty (scrape_details (str "T") titlelessContainer testCfg testScfg) = false ∧
    collect_page_jobs (str "T") testCfg testScfg 100 [titlelessContainer] []
      = [scrape_details (str "T") titlelessContainer testCfg testScfg] := by
  constructor
  · exact (collect_page_jobs_appends_nonempty (str "T") testCfg testScfg).1 titlelessContainer rfl
  · have h := (collect_page_jobs_appends_nonempty (str "T") testCfg testScfg).2
      [titlelessContainer] 100 [] (by decide)
    rw [h]
    decide

/-! ## Deduplication -/

/-- The dedup fingerprint: lower-cased title, a bar, lower-cased company,
with `j.value(key, "")` supplying the empty string for absent fields. -/
def fingerprint (job : JRec) : Str :=
  tolowerStr (jrec_value job (str "title") []) ++ ['|']
    ++ tolowerStr (jrec_value job (str "company") [])

/-- The single pass of `deduplicate_jobs`, carrying the set of fingerprints
seen so far. -/
def dedup_go (seen : List Str) : List JRec → List JRec
  | [] => []
  | job :: rest =>
    let fp := fingerprint job
    if fp ∈ seen then dedup_go seen rest
    else job :: dedup_go (fp :: seen) rest

/-- `deduplicate_jobs`: one pass over the records with an initially empty
fingerprint set. -/
def deduplicate_jobs (jobs : List JRec) : List JRec := dedup_go [] jobs

/-- The pass keeps a subsequence of its input (first-seen order preserved). -/
theorem dedup_go_sublist (l : List JRec) : ∀ seen, (dedup_go seen l).Sublist l := by
  induction l with
  | nil =>
    intro seen
    simp [dedup_go]
  | cons job rest ih =>
    intro seen
    simp only [dedup_go]
    split
    · exact (ih seen).cons job
    · exact (ih (fingerprint job :: seen)).cons₂ job

/-- No surviving record's fingerprint was already in the seen set. -/
theorem dedup_go_not_seen (l : List JRec) :
    ∀ seen j, j ∈ dedup_go seen l → fingerprint j ∉ seen := by
  induction l with
  | nil =>
    intro seen j hj
    simp [dedup_go] at hj
  | cons job rest ih =>
    intro seen j hj
    simp only [dedup_go] at hj
    split at hj
    · exact ih seen j hj
    · next hnot =>
      rcases List.mem_cons.mp hj with h | h
      · subst h
        exact hnot
      · intro hc
        exact ih (fingerprint job :: seen) j h (List.mem_cons_of_mem _ hc)

/-- Survivors have pairwise distinct fingerprints. -/
theorem dedup_go_pairwise (l : List JRec) :
    ∀ seen, (dedup_go seen l).Pairwise (fun a b => fingerprint a ≠ fingerprint b) := by
  induction l with
  | nil =>
    intro seen
    simp [dedup_go]
  | cons job rest ih =>
    intro seen
    simp only [dedup_go]
    split
    · exact ih seen
    · refine List.pairwise_cons.mpr ⟨?_, ih (fingerprint job :: seen)⟩
      intro b hb hc
      exact dedup_go_not_seen rest (fingerprint job :: seen) b hb
        (by rw [hc] at *; exact List.mem_cons_self _ _)

/-- Searching the survivors for a fingerprint not in the seen set finds the
same record as searching the input. -/
theorem dedup_go_find (l : List JRec) :
    ∀ seen f, f ∉ seen →
      (dedup_go seen l).find? (fun j => fingerprint j == f)
        = l.find? (fun j => fingerprint j == f) := by
  induction l with
  | nil =>
    intro seen f _
    simp [dedup_go]
  | cons job rest ih =>
    intro seen f hf
    simp only [dedup_go]
    split
    · next hmem =>
      have hne : (fingerprint job == f) = false :=
        beq_eq_false_iff_ne.mpr (fun hc => hf (hc ▸ hmem))
      rw [ih seen f hf, List.find?_cons_of_neg _ (by simp [hne])]
    · next hmem =>
      by_cases heq : fingerprint job = f
      · rw [List.find?_cons_of_pos _ (by simp [heq]),
          List.find?_cons_of_pos _ (by simp [heq])]
      · have hne : (fingerprint job == f) = false := beq_eq_false_iff_ne.mpr heq
        rw [List.find?_cons_of_neg _ (by simp [hne]),
          List.find?_cons_of_neg _ (by simp [hne])]
        refine ih (fingerprint job :: seen) f ?_
        intro hc
        rcases List.mem_cons.mp hc with h | h
        · exact heq h.symm
        · exact hf h

/-- Running the pass again over its own output changes nothing. -/
theorem dedup_go_idem (l : List JRec) :
    ∀ seen, dedup_go seen (dedup_go seen l) = dedup_go seen l := by
  induction l with
  | nil =>
    intro seen
    simp [dedup_go]
  | cons job rest ih =>
    intro seen
    simp only [dedup_go]
    split
    · exact ih seen
    · next hnot =>
      simp only [dedup_go]
      rw [if_neg hnot]
      exact congrArg _ (ih (fingerprint job :: seen))

/-- In a list with pairwise distinct fingerprints, records with equal
fingerprints are the same record. -/
theorem pairwise_fingerprint_eq (l : List JRec)
    (hp : l.Pairwise (fun a b => fingerprint a ≠ fingerprint b)) :
    ∀ a b, a ∈ l → b ∈ l → fingerprint a = fingerprint b → a = b := by
  induction l with
  | nil =>
    intro a b ha _ _
    simp at ha
  | cons x t ih =>
    rw [List.pairwise_cons] at hp
    intro a b ha hb hfp
    rcases List.mem_cons.mp ha with h1 | h1 <;> rcases List.mem_cons.mp hb with h2 | h2
    · rw [h1, h2]
    · subst h1
      exact absurd hfp (hp.1 b h2)
    · subst h2
      exact absurd hfp.symm (hp.1 a h1)
    · exact ih hp.2 a b h1 h2 hfp

/-- If a unique element satisfies the predicate and belongs to the list,
`find?` returns it. -/
theorem find_eq_of_unique {α : Type} (l : List α) (p : α → Bool) (j : α)
    (hj : j ∈ l) (hpj : p j = true) (huniq : ∀ x ∈ l, p x = true → x = j) :
    l.find? p = some j := by
  induction l with
  | nil =>
    simp at hj
  | cons x t ih =>
    by_cases hx : p x = true
    · have hxe : x = j := huniq x (List.mem_cons_self x t) hx
      subst hxe
      exact List.find?_cons_of_pos _ hx
    · rw [List.find?_cons_of_neg _ hx]
      refine ih ?_ ?_
      · rcases List.mem_cons.mp hj with h | h
        · exact absurd (h ▸ hpj) hx
        · exact h
      · intro x2 hx2 hp2
        exact huniq x2 (List.mem_cons_of_mem _ hx2) hp2

/-- `find?` for a stronger predicate agrees with `find?` for a weaker one
when the found element satisfies the stronger predicate. -/
theorem find_of_stronger {α : Type} (l : List α) (p q : α → Bool) (j : α)
    (himp : ∀ x, p x = true → q x = true) (hq : l.find? q = some j)
    (hpj : p j = true) : l.find? p = some j := by
  induction l with
  | nil =>
    simp at hq
  | cons x t ih =>
    by_cases hqx : q x = true
    · rw [List.find?_cons_of_pos _ hqx] at hq
      have hxj : x = j := by injection hq
      subst hxj
      exact List.find?_cons_of_pos _ hpj
    · rw [List.find?_cons_of_neg _ hqx] at hq
      have hpx : ¬p x = true := fun hc => hqx (himp x hc)
      rw [List.find?_cons_of_neg _ hpx]
      exact ih hq

/-- C6: deduplication keeps a subsequence of its input (single pass, order
preserved), survivors have pairwise distinct fingerprints, for every
fingerprint the surviving record is the input's first record with that
fingerprint, the pass is idempotent, and any two survivors sharing lowercase
title and company are one and the same record. -/
theorem deduplicate_jobs_spec (R : List JRec) :
    (deduplicate_jobs R).Sublist R ∧
    (deduplicate_jobs R).Pairwise (fun a b => fingerprint a ≠ fingerprint b) ∧
    (∀ f : Str, (deduplicate_jobs R).find? (fun j => fingerprint j == f)
        = R.find? (fun j => fingerprint j == f)) ∧
    deduplicate_jobs (deduplicate_jobs R) = deduplicate_jobs R ∧
    (∀ a b, a ∈ deduplicate_jobs R → b ∈ deduplicate_jobs R →
      tolowerStr (jrec_value a (str "title") []) = tolowerStr (jrec_value b (str "title") []) →
      tolowerStr (jrec_value a (str "company") [])
        = tolowerStr (jrec_value b (str "company") []) →
      a = b) := by
  refine ⟨dedup_go_sublist R [], dedup_go_pairwise R [], ?_, dedup_go_idem R [], ?_⟩
  · intro f
    exact dedup_go_find R [] f (List.not_mem_nil f)
  · intro a b ha hb ht hc
    refine pairwise_fingerprint_eq (deduplicate_jobs R) (dedup_go_pairwise R []) a b ha hb ?_
    rw [fingerprint, fingerprint, ht, hc]

/-- The two records of the duplicate scenario: same title and company up to
case. -/
def jobA : JRec := .obj [(str "title", .s (str "Engineer")), (str "company", .s (str "Acme"))]

/-- The capitalized twin of `jobA`. -/
def jobB : JRec := .obj [(str "title", .s (str "ENGINEER")), (str "company", .s (str "acme"))]

/-- Instantiation of the dedup theorem on the duplicate pair: uniqueness of
survivors with equal lowercase fields, and idempotence on that input. -/
theorem deduplicate_jobs_spec_witness :
    jobA = jobA ∧
    deduplicate_jobs (deduplicate_jobs [jobA, jobB]) = deduplicate_jobs [jobA, jobB] :=
  ⟨(deduplicate_jobs_spec [jobA, jobB]).2.2.2.2 jobA jobA (by decide) (by decide)
      (by decide) (by decide),
   (deduplicate_jobs_spec [jobA, jobB]).2.2.2.1⟩

/-- A record with neither title nor company, but one other field. -/
def missJob1 : JRec := .obj [(str "location", .s (str "X"))]

/-- A record with no fields at all. -/
def missJob2 : JRec := .obj []

/-- Whether a record lacks both the title and the company field. -/
def missing_title_company (j : JRec) : Bool :=
  (jrec_get j (str "title")).isNone && (jrec_get j (str "company")).isNone

/-- A lookup that misses makes `value` return the default. -/
theorem jrec_value_of_none (j : JRec) (k : Str) (d : Str) (h : jrec_get j k = none) :
    jrec_value j k d = d := by
  cases j with
  | null => rfl
  | obj o =>
    simp only [jrec_get] at h
    simp only [jrec_value, jvalue, h]

/-- A list with pairwise distinct fingerprints holds at most one element of
any class whose members all share one fingerprint. -/
theorem countP_le_one_of_pairwise (l : List JRec)
    (hp : l.Pairwise (fun a b => fingerprint a ≠ fingerprint b))
    (p : JRec → Bool) (himp : ∀ x, p x = true → fingerprint x = ['|']) :
    l.countP p ≤ 1 := by
  induction l with
  | nil => simp
  | cons x t ih =>
    rw [List.pairwise_cons] at hp
    rw [List.countP_cons]
    by_cases hx : p x = true
    · have h0 : t.countP p = 0 := by
        rw [List.countP_eq_zero]
        intro b hb hpb
        exact hp.1 b hb (by rw [himp x hx, himp b hpb])
      simp [h0, hx]
    · have hx0 : p x = false := by simpa using hx
      simp only [hx0, if_false, Nat.add_zero]
      exact ih hp.2

/-- C10: a missing title contributes the empty string to the fingerprint (and
likewise a missing company), so records missing both fields share the bare
fingerprint `|`; at most one survivor lacks both fields, and a surviving such
record is the input's first record missing both fields. -/
theorem deduplicate_jobs_missing_fields (R : List JRec) (j : JRec) :
    (jrec_get j (str "title") = none →
      fingerprint j = ['|'] ++ tolowerStr (jrec_value j (str "company") [])) ∧
    (jrec_get j (str "company") = none →
      fingerprint j = tolowerStr (jrec_value j (str "title") []) ++ ['|']) ∧
    (missing_title_company j = true → fingerprint j = ['|']) ∧
    (deduplicate_jobs R).countP missing_title_company ≤ 1 ∧
    (j ∈ deduplicate_jobs R → missing_title_company j = true →
      R.find? missing_title_company = some j) := by
  have hmfp : ∀ x : JRec, missing_title_company x = true → fingerprint x = ['|'] := by
    intro x hx
    simp only [missing_title_company, Bool.and_eq_true, Option.isNone_iff_eq_none] at hx
    rw [fingerprint, jrec_value_of_none x _ _ hx.1, jrec_value_of_none x _ _ hx.2]
    rfl
  refine ⟨?_, ?_, hmfp j, ?_, ?_⟩
  · intro h
    rw [fingerprint, jrec_value_of_none j _ _ h]
    rfl
  · intro h
    rw [fingerprint, jrec_value_of_none j _ _ h]
    simp [tolowerStr]
  · exact countP_le_one_of_pairwise (deduplicate_jobs R) (dedup_go_pairwise R [])
      missing_title_company hmfp
  · intro hmem hmiss
    have hfpj : fingerprint j = ['|'] := hmfp j hmiss
    have huniq : ∀ x ∈ deduplicate_jobs R, (fingerprint x == (['|'] : Str)) = true → x = j := by
      intro x hx hfx
      refine pairwise_fingerprint_eq (deduplicate_jobs R) (dedup_go_pairwise R []) x j hx hmem ?_
      rw [hfpj]
      exact beq_iff_eq.mp hfx
    have hfind : (deduplicate_jobs R).find? (fun x => fingerprint x == (['|'] : Str)) = some j :=
      find_eq_of_unique _ _ j hmem (by rw [hfpj]; exact beq_self_eq_true _) huniq
    have hfindR : R.find? (fun x => fingerprint x == (['|'] : Str)) = some j := by
      rw [← dedup_go_find R [] ['|'] (List.not_mem_nil _)]
      exact hfind
    refine find_of_stronger R missing_title_company (fun x => fingerprint x == (['|'] : Str)) j
      ?_ hfindR hmiss
    intro x hx
    show (fingerprint x == (['|'] : Str)) = true
    rw [hmfp x hx]
    exact beq_self_eq_true _

/-- Instantiation of the missing-fields theorem: the bare fingerprint of a
fieldless record, and the first record missing both fields found by
`find?` on a concrete input. -/
theorem deduplicate_jobs_missing_fields_witness :
    fingerprint missJob2 = ['|'] ∧
    List.find? missing_title_company [jobA, missJob1, missJob2] = some missJob1 :=
  ⟨(deduplicate_jobs_missing_fields [] missJob2).2.2.1 (by decide),
   (deduplicate_jobs_missing_fields [jobA, missJob1, missJob2] missJob1).2.2.2.2
     (by decide) (by decide)⟩

/-! ## The fetch-retry loop of `fetch_page` -/

/-- The outcome of one `curl_easy_perform` attempt: a transport-level
failure (CURLcode with whatever partial data the write callback stored) or
an HTTP response with its status and body. -/
inductive AttemptResult where
  | curl_fail (code : Nat) (partial_body : Str)
  | http (status : Nat) (body : Str)
deriving DecidableEq

/-- The per-site rate-limit record.  The `last_request` time point is not
touched by the retry loop and is left to the rate-limit section. -/
structure RateLimitInfo where
  delay : Nat
  consecutive_successes : Nat
  consecutive_failures : Nat
  backoff_mode : Bool
deriving DecidableEq

/-- The default-constructed state with the initial five-second delay. -/
def init_rate_info : RateLimitInfo :=
  { delay := 5, consecutive_successes := 0, consecutive_failures := 0, backoff_mode := false }

/-- The 2xx bookkeeping of `fetch_page`: bump the success streak, clear the
failure streak, and leave backoff mode after more than three straight
successes. -/
def record_success (info : RateLimitInfo) : RateLimitInfo :=
  let info2 := { info with consecutive_successes := info.consecutive_successes + 1,
                           consecutive_failures := 0 }
  if info2.backoff_mode && decide (info2.consecutive_successes > 3) then
    { info2 with backoff_mode := false }
  else info2

/-- The non-2xx bookkeeping of `fetch_page`: bump the failure streak, clear
the success streak, and on 429/403/999 enter backoff mode doubling the
stored delay. -/
def record_failure (http_code : Nat) (info : RateLimitInfo) : RateLimitInfo :=
  let info2 := { info with consecutive_failures := info.consecutive_failures + 1,
                           consecutive_successes := 0 }
  if (http_code == 429 || http_code == 403 || http_code == 999) && !info2.backoff_mode then
    { info2 with backoff_mode := true, delay := info2.delay * 2 }
  else info2

/-- The retry loop of `fetch_page`: up to `r` further attempts starting at
attempt index `i`, tracking the rate state and the last attempt's result
(`res`/`buffer` of the source; `none` when no attempt ran yet).  A 2xx
response breaks out; every other outcome is retried; the state updates
happen only when a site name was supplied. -/
def fetch_attempts (attempts : Nat → AttemptResult) (site_name : Str) :
    Nat → Nat → RateLimitInfo → Option AttemptResult → RateLimitInfo × Option AttemptResult
  | 0, _, st, last => (st, last)
  | r + 1, i, st, last =>
    match attempts i with
    | .http code body =>
      if 200 ≤ code ∧ code < 300 then
        ((if !site_name.isEmpty then record_success st else st), some (.http code body))
      else
        fetch_attempts attempts site_name r (i + 1)
          (if !site_name.isEmpty then record_failure code st else st)
          (some (.http code body))
    | .curl_fail e b =>
      fetch_attempts attempts site_name r (i + 1) st (some (.curl_fail e b))

/-- `fetch_page`: after the loop the function throws (error) exactly when
the last attempt's CURLcode is not OK; any HTTP response left in the buffer
— whatever its status — is returned as the page body, and zero retries
return the empty buffer. -/
def fetch_page (attempts : Nat → AttemptResult) (retries : Nat) (site_name : Str)
    (st : RateLimitInfo) : RateLimitInfo × Except Nat Str :=
  match fetch_attempts attempts site_name retries 0 st none with
  | (st2, none) => (st2, .ok [])
  | (st2, some (.http _ body)) => (st2, .ok body)
  | (st2, some (.curl_fail e _)) => (st2, .error e)

deriving instance DecidableEq for Except

/-- C2 counterexample: three attempts all answered HTTP 403 — no attempt
was 2xx — yet the call returns the last response's body, not an error. -/
theorem fetch_page_counterexample :
    (fetch_page (fun _ => .http 403 (str "blocked page")) 3 (str "Indeed") init_rate_info).2
      = .ok (str "blocked page") := by
  decide

/-- When no attempt in range is 2xx, the loop runs to the last attempt and
ends with its result. -/
theorem fetch_attempts_all_non2xx (attempts : Nat → AttemptResult) (site_name : Str) :
    ∀ (r i : Nat) (st : RateLimitInfo) (last : Option AttemptResult),
      0 < r →
      (∀ k, k < r → ∀ code body, attempts (i + k) = .http code body →
        ¬(200 ≤ code ∧ code < 300)) →
      (fetch_attempts attempts site_name r i st last).2 = some (attempts (i + r - 1)) := by
  intro r
  induction r with
  | zero =>
    intro i st _last h
    exact absurd h (lt_irrefl 0)
  | succ r2 ih =>
    intro i st last _ hno
    cases ha : attempts i with
    | http code body =>
      have hn : ¬(200 ≤ code ∧ code < 300) :=
        hno 0 (Nat.succ_pos r2) code body (by simpa using ha)
      simp only [fetch_attempts, ha, if_neg hn]
      cases r2 with
      | zero =>
        simp only [fetch_attempts, Nat.add_sub_cancel]
        rw [ha]
      | succ r3 =>
        have hrec := ih (i + 1) (if !site_name.isEmpty then record_failure code st else st)
          (some (.http code body)) (Nat.succ_pos r3) (by
            intro k hk code2 body2 hak
            refine hno (k + 1) (by omega) code2 body2 ?_
            have harg : i + 1 + k = i + (k + 1) := by omega
            rw [← harg]
            exact hak)
        rw [hrec]
        congr 2
        omega
    | curl_fail e b =>
      simp only [fetch_attempts, ha]
      cases r2 with
      | zero =>
        simp only [fetch_attempts, Nat.add_sub_cancel]
        rw [ha]
      | succ r3 =>
        have hrec := ih (i + 1) st (some (.curl_fail e b)) (Nat.succ_pos r3) (by
          intro k hk code2 body2 hak
          refine hno (k + 1) (by omega) code2 body2 ?_
          have harg : i + 1 + k = i + (k + 1) := by omega
          rw [← harg]
          exact hak)
        rw [hrec]
        congr 2
        omega

/-- C2 (amended): exhausting the retries without any 2xx yields an error
only when the final attempt failed at transport level; when the final
attempt was an HTTP response — of whatever non-2xx status — its body is
returned as though the fetch had succeeded. -/
theorem fetch_page_exhausted (attempts : Nat → AttemptResult) (retries : Nat)
    (site_name : Str) (st : RateLimitInfo) (hpos : 0 < retries)
    (hno : ∀ k, k < retries → ∀ code body, attempts k = .http code body →
      ¬(200 ≤ code ∧ code < 300)) :
    (∀ code body, attempts (retries - 1) = .http code body →
      (fetch_page attempts retries site_name st).2 = .ok body) ∧
    (∀ e b, attempts (retries - 1) = .curl_fail e b →
      (fetch_page attempts retries site_name st).2 = .error e) := by
  have hlast : (fetch_attempts attempts site_name retries 0 st none).2
      = some (attempts (retries - 1)) := by
    have := fetch_attempts_all_non2xx attempts site_name retries 0 st none hpos
      (by simpa using hno)
    simpa using this
  rcases hfa : fetch_attempts attempts site_name retries 0 st none with ⟨st2, last⟩
  rw [hfa] at hlast
  simp only at hlast
  constructor
  · intro code body hab
    rw [fetch_page, hfa, hlast, hab]
  · intro e b hab
    rw [fetch_page, hfa, hlast, hab]

/-- Instantiation of the exhaustion theorem: two attempts of HTTP 404 end
with the 404 page body returned as a success. -/
theorem fetch_page_exhausted_witness :
    (fetch_page (fun _ => .http 404 (str "not found")) 2 (str "Dice") init_rate_info).2
      = .ok (str "not found") :=
  (fetch_page_exhausted (fun _ => .http 404 (str "not found")) 2 (str "Dice") init_rate_info
      (by decide)
      (fun k hk code body hab => by cases hab; decide)).1 404 (str "not found") rfl

/-! ## The rate limiter (`enforce_rate_limits`) -/

/-- The site-specific base delay of `enforce_rate_limits`, in seconds:
LinkedIn 30, Indeed 15, Dice and SimplyHired 3, all other sites the
default 5. -/
def base_required_delay (site_name : Str) : Nat :=
  if site_name == str "LinkedIn" then 30
  else if site_name == str "Indeed" then 15
  else if site_name == str "Dice" || site_name == str "SimplyHired" then 3
  else 5

/-- The effect of `required_delay *= 1.2` on a `std::chrono::seconds`:
`operator*=` takes the representation type (`int64_t`), so the double
literal is converted first, truncating `1.2` to `1`; the stored count is
multiplied by that truncated factor. -/
def chrono_scale_by_double (d : Nat) (num den : Nat) : Nat := d * (num / den)

/-- The delay `enforce_rate_limits` computes before a request: the
site-specific base, put through the (truncating) 1.2 scaling while in
backoff mode, plus `rand() % 5` seconds of jitter. -/
def required_delay (site_name : Str) (backoff_mode : Bool) (rand_val : Nat) : Nat :=
  (if backoff_mode then chrono_scale_by_double (base_required_delay site_name) 12 10
   else base_required_delay site_name) + rand_val % 5

/-- Modelled from the spec: section 4.4's `required_delay` — the
site-specific base delay scaled by exactly 1.2 while in backoff, plus the
0–4 second jitter — expressed in tenths of a second so the 1.2 factor stays
integral. -/
def required_delay_spec_tenths (site_name : Str) (backoff_mode : Bool) (rand_val : Nat) : Nat :=
  (if backoff_mode then 12 * base_required_delay site_name
   else 10 * base_required_delay site_name) + 10 * (rand_val % 5)

/-- C4: in backoff mode the code waits the UNSCALED base delay — the 1.2
factor truncates to 1 inside `chrono::seconds::operator*=` — so for
LinkedIn in backoff the computed delay is 30 s + jitter where the spec
demands 36 s + jitter; out of backoff the code and the spec agree. -/
theorem required_delay_backoff_unscaled :
    required_delay (str "LinkedIn") true 0 = 30 ∧
    required_delay_spec_tenths (str "LinkedIn") true 0 = 360 ∧
    10 * required_delay (str "LinkedIn") true 0 ≠ required_delay_spec_tenths (str "LinkedIn") true 0 ∧
    (∀ (b : Bool) (r : Nat), required_delay (str "LinkedIn") b r = 30 + r % 5) ∧
    (∀ (site_name : Str) (r : Nat),
      10 * required_delay site_name false r = required_delay_spec_tenths site_name false r) := by
  refine ⟨by decide, by decide, by decide, ?_, ?_⟩
  · intro b r
    have hb : base_required_delay (str "LinkedIn") = 30 := by decide
    cases b <;> simp [required_delay, chrono_scale_by_double, hb]
  · intro site_name r
    simp only [required_delay, required_delay_spec_tenths, if_neg (by simp : ¬False), Bool.false_eq_true, if_false]
    omega

/-- C5 counterexample: the record extracted from the concrete container is a
fully populated record (its title is present) and still carries no `job_id`
field. -/
theorem scrape_details_no_job_id_counterexample :
    jrec_get (scrape_details (str "T") testContainer testCfg testScfg) (str "job_id") = none ∧
    jrec_get (scrape_details (str "T") testContainer testCfg testScfg) (str "title")
      = some (.s (str "Engineer")) := by
  refine ⟨by decide, by decide⟩
